import Mathlib

/-!
Verification development for the vial-shot-distribution reconciliation
script `fix_vial_shot_distribution.py`.

The script's core is embedded shallowly:
* Python string comparison and slicing are modelled on `List Char`
  (Python compares strings lexicographically by code point, and slices
  by code point as well).
* `get_correct_vial_for_date` is the assignment policy.
* The planner loop of `main` (the "Changes needed" section) is
  `change_for` / `compute_changes`.
* The apply loop of `main` (per-item `update_item` with `try/except`)
  is `apply_loop`, and the whole observable run is `run_main`.
* The DynamoDB value marshalling (`parse_dynamo_value`,
  `format_dynamo_value`) is embedded over a tagged value type, with
  Python numbers modelled as exact rationals.
-/

/-- Lexicographic comparison of character lists by code point, exactly as
Python compares two `str` values with `<`. -/
def lexLt : List Char → List Char → Bool
  | [], [] => false
  | [], _ :: _ => true
  | _ :: _, [] => false
  | a :: as, b :: bs => if a < b then true else if b < a then false else lexLt as bs

/-- Python string comparison `a < b`. -/
def pyStrLt (a b : String) : Bool := lexLt a.data b.data

/-- Python string comparison `a >= b` (total order, so `a >= b` iff `¬ a < b`). -/
def pyStrGe (a b : String) : Bool := !pyStrLt a b

/-- Python string slice `s[:n]` (first `n` code points, or all of `s` if it is
shorter). -/
def pySlice (s : String) (n : Nat) : String := ⟨s.data.take n⟩

/-- Python substring containment `needle in hay` over character lists:
true iff `needle` occurs contiguously in `hay`. -/
def hasSub (needle : List Char) : List Char → Bool
  | [] => needle.isEmpty
  | c :: t => needle.isPrefixOf (c :: t) || hasSub needle t

/-- Python `needle in hay` for strings. -/
def py_in (needle hay : String) : Bool := hasSub needle.data hay.data

/-- The policy `get_correct_vial_for_date` from `fix_vial_shot_distribution.py`
(lines 83-108): empty timestamp gives `none`; otherwise the first 10
characters (the `YYYY-MM-DD` date portion) are compared lexicographically
against the two boundary dates. -/
def get_correct_vial_for_date (date_str : String) : Option String :=
  if date_str = "" then none
  else
    let dp := pySlice date_str 10
    if pyStrLt dp "2025-09-13" then some "vial_20240805_1"
    else if pyStrLt dp "2025-10-29" then some "vial_20240805_2"
    else some "vial_20241029_1"

/-- The constant `DRY_STOCK_VIALS` from `fix_vial_shot_distribution.py` (line 129):
vials that should never have shots. -/
def DRY_STOCK_VIALS : List String := ["vial_20241029_2", "vial_20241029_3", "vial_20241029_4"]

/-- A parsed injection record, as `parse_item` produces it for the fields the
script reads.  A missing timestamp is modelled as `""` (the default the
script supplies in `inj.get('timestamp', '')`); a missing or `NULL` vial
association is `none`. -/
structure Injection where
  PK : String
  SK : String
  timestamp : String
  doseMg : Option Rat
  vialId : Option String
  updatedAt : Option String
deriving DecidableEq

/-- One entry of the `changes` list built by `main`. -/
structure Change where
  PK : String
  SK : String
  timestamp : String
  doseMg : Option Rat
  current_vial : String
  correct_vial : String
deriving DecidableEq

/-- The `needs_change` computation of `main` (lines 199-209): true when the
current association is `None`, when any dry-stock vial id occurs in the
current association string (Python's `ds in str(current_vial)` substring
test), or when the current association differs from the policy vial. -/
def needs_change (current_vial : Option String) (correct_vial : String) : Bool :=
  match current_vial with
  | none => true
  | some cv => (DRY_STOCK_VIALS.any fun ds => py_in ds cv) || cv != correct_vial

/-- One iteration of the planner loop of `main`: the change record emitted
for one injection, or `none` when the injection is skipped (unresolvable
timestamp) or already correct. -/
def change_for (inj : Injection) : Option Change :=
  match get_correct_vial_for_date inj.timestamp with
  | none => none
  | some correct_vial =>
    if needs_change inj.vialId correct_vial then
      some ⟨inj.PK, inj.SK, inj.timestamp, inj.doseMg,
            (match inj.vialId with
             | none => "NULL"
             | some cv => if cv = "" then "NULL" else cv),
            correct_vial⟩
    else none

/-- The full change-set computed by the planner, in input iteration order. -/
def compute_changes (injections : List Injection) : List Change :=
  injections.filterMap change_for

/-- The timestamps reported with the `[!] Cannot determine vial for ...`
diagnostic: injections whose timestamp yields no policy vial, in input
order. -/
def skipped_timestamps (injections : List Injection) : List String :=
  (injections.filter fun i => (get_correct_vial_for_date i.timestamp).isNone).map
    fun i => i.timestamp

/-- The effect of one successful `dynamodb.update_item` call on one stored
injection record: if the record's composite key matches the change's key,
`vialId` is set to the corrected vial and `updatedAt` to the wall-clock
time of the write (passed in as `now`); otherwise the record is untouched. -/
def upd_one (now : String) (c : Change) (i : Injection) : Injection :=
  if i.PK = c.PK ∧ i.SK = c.SK then
    { i with vialId := some c.correct_vial, updatedAt := some now }
  else i

/-- One successful `update_item` call over the whole table: DynamoDB keys are
composite (`PK`,`SK`), so the update rewrites exactly the records whose key
matches. -/
def update_store (now : String) (st : List Injection) (c : Change) : List Injection :=
  st.map (upd_one now c)

/-- The apply loop of `main` (lines 252-273): one `update_item` per change
record, in change-set order, with a per-item `try/except` so a failed call
(`f c = false`) is only counted, never aborts the loop.  Returns
(final store, success count, error count, attempted changes in order). -/
def apply_loop (f : Change → Bool) (now : String) :
    List Change → List Injection → Nat → Nat → List Change →
    List Injection × Nat × Nat × List Change
  | [], st, sc, ec, att => (st, sc, ec, att)
  | c :: cs, st, sc, ec, att =>
    if f c then apply_loop f now cs (update_store now st c) (sc + 1) ec (att ++ [c])
    else apply_loop f now cs st sc (ec + 1) (att ++ [c])

/-- One step of building the `expected` distribution dict of `main`
(lines 228-236): group by policy vial (which can be `none`), counting shots
and summing `doseMg or 0`.  Insertion order is preserved, keys are unique. -/
def add_expected (acc : List (Option String × Nat × Rat)) (v : Option String) (mg : Rat) :
    List (Option String × Nat × Rat) :=
  if acc.any fun e => e.1 == v then
    acc.map fun e => if e.1 == v then (e.1, e.2.1 + 1, e.2.2 + mg) else e
  else acc ++ [(v, 1, mg)]

/-- The `expected` distribution computed over all injections purely from the
policy, independent of the change-set. -/
def expected_items (injections : List Injection) : List (Option String × Nat × Rat) :=
  injections.foldl (fun acc i =>
    add_expected acc (get_correct_vial_for_date i.timestamp) (i.doseMg.getD 0)) []

/-- Insertion into a sorted list, used to model Python's `sorted`. -/
def insertSorted (le : α → α → Bool) (x : α) : List α → List α
  | [] => [x]
  | y :: t => if le x y then x :: y :: t else y :: insertSorted le x t

/-- Insertion sort, used to model Python's `sorted` (order of equal keys is
irrelevant here: the keys are unique dict keys). -/
def sortIns (le : α → α → Bool) : List α → List α
  | [] => []
  | x :: t => insertSorted le x (sortIns le t)

/-- Sort key for the expected-distribution items. -/
def expKey (o : Option String) : String := o.getD ""

/-- Python's `sorted(expected.items())` (line 238): item keys are compared
directly, so a `None` key (an unresolvable timestamp) alongside a string key
raises an uncaught `TypeError`; otherwise the items are sorted by key. -/
def sort_expected (items : List (Option String × Nat × Rat)) :
    Option (List (Option String × Nat × Rat)) :=
  if (items.any fun e => e.1.isNone) && (items.any fun e => e.1.isSome) then
    none
  else
    some (sortIns (fun a b => decide (expKey a.1 ≤ expKey b.1)) items)

/-- The observable outcome of one invocation of `main`, starting from the
already-scanned injection list `store`.  `uncaught = some msg` means the run
aborted with an uncaught exception after the planning phase;
`printed_expected` is the expected-distribution section when it was
reported; `attempts` are the changes for which an `update_item` call was
issued, in order. -/
structure RunResult where
  store : List Injection
  uncaught : Option String
  reported_changes : List Change
  skipped : List String
  printed_expected : Option (List (Option String × Nat × Rat))
  success_count : Nat
  error_count : Nat
  attempts : List Change

/-- The decision-making tail of `main` (lines 185-273), with the scan
abstracted into the given `store`, per-call `update_item` success given by
`f`, and the wall-clock write timestamp by `now`:
1. compute the change-set (printing a diagnostic per skipped injection);
2. if it is empty, report and return;
3. build the expected distribution and sort it (raising `TypeError` when a
   `None` key meets string keys);
4. if `dry_run`, return without writes;
5. otherwise run the apply loop. -/
def run_main (dry_run : Bool) (f : Change → Bool) (now : String)
    (store : List Injection) : RunResult :=
  if (compute_changes store).isEmpty then
    ⟨store, Option.none, compute_changes store, skipped_timestamps store,
     Option.none, 0, 0, []⟩
  else
    match sort_expected (expected_items store) with
    | Option.none =>
      ⟨store, some "TypeError: unorderable types NoneType and str",
       compute_changes store, skipped_timestamps store, Option.none, 0, 0, []⟩
    | some sortedExp =>
      if dry_run then
        ⟨store, Option.none, compute_changes store, skipped_timestamps store,
         some sortedExp, 0, 0, []⟩
      else
        ⟨(apply_loop f now (compute_changes store) store 0 0 []).1,
         Option.none, compute_changes store, skipped_timestamps store, some sortedExp,
         (apply_loop f now (compute_changes store) store 0 0 []).2.1,
         (apply_loop f now (compute_changes store) store 0 0 []).2.2.1,
         (apply_loop f now (compute_changes store) store 0 0 []).2.2.2⟩

/-- A DynamoDB attribute value: the tagged-union wire representation the
adapter receives.  The four tags the script knows are explicit; any other
tag (a list, a map, ...) is `other`, with its nested content abstracted as
an opaque payload string. -/
inductive AttrValue where
  | S (s : String)
  | N (s : String)
  | NULL (b : Bool)
  | BOOL (b : Bool)
  | other (tag : String) (payload : String)
deriving DecidableEq

/-- A plain Python value as produced by `parse_dynamo_value` and consumed by
`format_dynamo_value`.  Python numbers are modelled as exact rationals
(every Python float is an exact rational, and CPython guarantees
`float(str(v)) == v`); `raw` is a passed-through tagged value (a dict in
Python). -/
inductive PyValue where
  | str (s : String)
  | num (q : Rat)
  | none
  | bool (b : Bool)
  | raw (tag : String) (payload : String)
deriving DecidableEq

/-- Little-endian base-10 digits, via explicit fuel so that the recursion is
structural and concrete evaluation reduces in the kernel. -/
def natDigitsLE : Nat → Nat → List Nat
  | 0, _ => []
  | _ + 1, 0 => []
  | fuel + 1, n + 1 => (n + 1) % 10 :: natDigitsLE fuel ((n + 1) / 10)

/-- Little-endian base-10 digits of `n` (empty for 0). -/
def digs (n : Nat) : List Nat := natDigitsLE n n

/-- The character for one decimal digit, computed from the codepoint. -/
def decChar (d : Nat) : Char :=
  if d < 10 then Char.ofNat ('0'.toNat + d) else '*'

/-- The decimal digit denoted by a character, if any, computed from the
codepoint. -/
def decVal? (c : Char) : Option Nat :=
  if '0' ≤ c ∧ c ≤ '9' then some (c.toNat - '0'.toNat) else Option.none

/-- Render a decimal numeral: optional minus sign, then the digits of `m`
zero-padded to more than `k` digits, with the decimal point `k` digits from
the right. -/
def render_dec (negb : Bool) (m k : Nat) : String :=
  ⟨(if negb then ['-'] else []) ++
    (((digs m ++ List.replicate (k + 1 - (digs m).length) 0).drop k).reverse.map decChar) ++
    '.' :: (((digs m ++ List.replicate (k + 1 - (digs m).length) 0).take k).reverse.map decChar)⟩

/-- Python `str(value)` for a number, modelled over exact rationals as a
plain signed decimal `digits.digits` (exact whenever the denominator
divides a power of ten, which holds for every Python float).  The rendering
is not Python's shortest-repr algorithm — that is floating-point behaviour —
but it denotes the same exact value, which is what the round-trip facts
need. -/
def py_str_num (q : Rat) : String :=
  render_dec (decide (q.num < 0))
    (q.num * (10 : Int) ^ (max 1 q.den) / (q.den : Int)).natAbs (max 1 q.den)

/-- Python `str(value)` for the values the script can hand to
`format_dynamo_value`.  The exact rendering of a raw tagged value (a dict)
never matters to any property, only that it is some string. -/
def py_str : PyValue → String
  | .str s => s
  | .num q => py_str_num q
  | .none => "None"
  | .bool b => if b then "True" else "False"
  | .raw tag payload => "\x7b'" ++ tag ++ "': " ++ payload ++ "\x7d"

/-- Big-endian digit values of a character list, all of which must be
decimal digits. -/
def decValsBE : List Char → Option (List Nat)
  | [] => some []
  | c :: t =>
    match decVal? c, decValsBE t with
    | some d, some ds => some (d :: ds)
    | _, _ => Option.none

/-- Whether a character list contains a `'.'`. -/
def hasDot : List Char → Bool
  | [] => false
  | c :: t => if c = '.' then true else hasDot t

/-- Split a character list at its unique `'.'`, failing when there is no dot
or more than one. -/
def splitDot : List Char → Option (List Char × List Char)
  | [] => Option.none
  | c :: t =>
    if c = '.' then (if hasDot t then Option.none else some ([], t))
    else (splitDot t).map fun p => (c :: p.1, p.2)

/-- Unsigned part of `float(s)`: `digits.digits` read exactly. -/
def pyFloatCore (l : List Char) : Option Rat :=
  match splitDot l with
  | Option.none => Option.none
  | some (ip, fp) =>
    if ip.isEmpty || fp.isEmpty then Option.none
    else
      match decValsBE ip, decValsBE fp with
      | some a, some b =>
        some (((Nat.ofDigits 10 (b.reverse ++ a.reverse) : Nat) : Rat) / (10 : Rat) ^ fp.length)
      | _, _ => Option.none

/-- Python `float(s)`, modelled exactly over rationals and restricted to
plain signed decimal literals `[-]digits.digits` (the only form
`py_str_num` produces); anything else — e.g. `'True'` — is a parse failure,
`Option.none` standing for the raised `ValueError`. -/
def pyFloat (s : String) : Option Rat :=
  match s.data with
  | '-' :: rest => (pyFloatCore rest).map fun q => -q
  | l => pyFloatCore l

/-- The adapter's `parse_dynamo_value` (lines 52-62): tag dispatch in source order; a value
with an unknown tag is returned unchanged; `float(value['N'])` raises
`ValueError` on a non-numeric payload, modelled as `Option.none` for the
whole call. -/
def parse_dynamo_value : AttrValue → Option PyValue
  | .S s => some (.str s)
  | .N s => (pyFloat s).map PyValue.num
  | .NULL _ => some PyValue.none
  | .BOOL b => some (.bool b)
  | .other tag payload => some (.raw tag payload)

/-- Python `isinstance(value, (int, float, Decimal))`: crucially, `bool` is a
subclass of `int` in Python, so booleans satisfy this test. -/
def is_int_float_decimal : PyValue → Bool
  | .num _ => true
  | .bool _ => true
  | _ => false

/-- The adapter's `format_dynamo_value` (lines 65-75), with Python's branch order: `None`
first, then `str`, then the numeric types — which booleans also satisfy —
then `bool`, then the `str(value)` fallback. -/
def format_dynamo_value (v : PyValue) : AttrValue :=
  match v with
  | .none => .NULL true
  | .str s => .S s
  | v =>
    if is_int_float_decimal v then .N (py_str v)
    else
      match v with
      | .bool b => .BOOL b
      | v => .S (py_str v)

/-- The apply step as the idempotence claim describes it: each changed
injection's association field is set to its change record's corrected
vial.  (On a uniquely-keyed store the keyed `update_item` writes amount to
exactly this, see `post_apply_pointwise`; the `updatedAt` stamp is
irrelevant to the planner and not modelled here.) -/
def apply_changes (injections : List Injection) : List Injection :=
  injections.map fun inj =>
    match change_for inj with
    | some c => { inj with vialId := some c.correct_vial }
    | Option.none => inj

/-- The composite key of a stored injection record. -/
def key (i : Injection) : String × String := (i.PK, i.SK)

/-- Whether a parse result is a plain string value. -/
def is_str_result : Option PyValue → Bool
  | some (.str _) => true
  | _ => false

/-- Modelled from the spec: each active vial's usable date window, implied by
its reconstitution date and the policy boundaries (the script itself has no
explicit window data beyond the policy's boundary table). -/
def vial_window (v : String) (d : String) : Bool :=
  if v = "vial_20240805_1" then pyStrLt d "2025-09-13"
  else if v = "vial_20240805_2" then pyStrGe d "2025-09-13" && pyStrLt d "2025-10-29"
  else if v = "vial_20241029_1" then pyStrGe d "2025-10-29"
  else false

theorem lexLt_cons_iff (a b : Char) (as bs : List Char) :
    lexLt (a :: as) (b :: bs) = true ↔ a < b ∨ (a = b ∧ lexLt as bs = true) := by
  simp only [lexLt]
  split_ifs with hab hba
  · simp [hab]
  · have hne : a ≠ b := by
      intro h
      exact absurd (h ▸ hba) (lt_irrefl a)
    simp [hab, hne]
  · have heq : a = b := le_antisymm (not_lt.mp hba) (not_lt.mp hab)
    simp [heq]

theorem lexLt_trans :
    ∀ (a b c : List Char), lexLt a b = true → lexLt b c = true → lexLt a c = true
  | [], [], _, h1, _ => by simp [lexLt] at h1
  | [], _ :: _, [], _, h2 => by simp [lexLt] at h2
  | [], _ :: _, _ :: _, _, _ => by simp [lexLt]
  | _ :: _, [], _, h1, _ => by simp [lexLt] at h1
  | _ :: _, _ :: _, [], _, h2 => by simp [lexLt] at h2
  | a :: as, b :: bs, c :: cs, h1, h2 => by
    rw [lexLt_cons_iff] at h1 h2 ⊢
    rcases h1 with h1 | ⟨h1e, h1t⟩
    · rcases h2 with h2 | ⟨h2e, h2t⟩
      · exact Or.inl (lt_trans h1 h2)
      · exact Or.inl (h2e ▸ h1)
    · rcases h2 with h2 | ⟨h2e, h2t⟩
      · exact Or.inl (h1e ▸ h2)
      · exact Or.inr ⟨h1e.trans h2e, lexLt_trans as bs cs h1t h2t⟩

theorem pyStrLt_trans (a b c : String) (h1 : pyStrLt a b = true) (h2 : pyStrLt b c = true) :
    pyStrLt a c = true :=
  lexLt_trans a.data b.data c.data h1 h2

/-- The policy only ever produces one of the three active vials. -/
theorem policy_cases (t v : String) (h : get_correct_vial_for_date t = some v) :
    v = "vial_20240805_1" ∨ v = "vial_20240805_2" ∨ v = "vial_20241029_1" := by
  unfold get_correct_vial_for_date at h
  by_cases h0 : t = ""
  · simp [h0] at h
  · rw [if_neg h0] at h
    by_cases h1 : pyStrLt (pySlice t 10) "2025-09-13" = true
    · rw [if_pos h1] at h
      simp at h
      exact Or.inl h.symm
    · rw [if_neg h1] at h
      by_cases h2 : pyStrLt (pySlice t 10) "2025-10-29" = true
      · rw [if_pos h2] at h
        simp at h
        exact Or.inr (Or.inl h.symm)
      · rw [if_neg h2] at h
        simp at h
        exact Or.inr (Or.inr h.symm)

/-- The policy result is never a dry-stock vial. -/
theorem policy_not_dry (t v : String) (h : get_correct_vial_for_date t = some v) :
    v ∉ DRY_STOCK_VIALS := by
  rcases policy_cases t v h with h1 | h1 | h1 <;> subst h1 <;> decide

/-- No dry-stock vial id occurs as a substring of a policy result. -/
theorem policy_no_dry_sub (t v : String) (h : get_correct_vial_for_date t = some v) :
    (DRY_STOCK_VIALS.any fun ds => py_in ds v) = false := by
  rcases policy_cases t v h with h1 | h1 | h1 <;> subst h1 <;> decide

/-- The policy fails exactly on the empty timestamp. -/
theorem policy_none_iff (t : String) :
    get_correct_vial_for_date t = Option.none ↔ t = "" := by
  unfold get_correct_vial_for_date
  by_cases h0 : t = ""
  · simp [h0]
  · rw [if_neg h0]
    by_cases h1 : pyStrLt (pySlice t 10) "2025-09-13" = true
    · simp [h0, h1]
    · rw [if_neg h1]
      by_cases h2 : pyStrLt (pySlice t 10) "2025-10-29" = true <;> simp [h0, h2]

theorem needs_change_none_eq (v : String) : needs_change Option.none v = true := rfl

theorem needs_change_some_eq (cv v : String) :
    needs_change (some cv) v =
      ((DRY_STOCK_VIALS.any fun ds => py_in ds cv) || cv != v) := rfl

/-- An injection already carrying its policy vial needs no change. -/
theorem needs_change_self (t v : String) (h : get_correct_vial_for_date t = some v) :
    needs_change (some v) v = false := by
  rw [needs_change_some_eq]
  simp [policy_no_dry_sub t v h]

/-- The policy result's usable window always contains the date it was
computed from. -/
theorem policy_window (t v : String) (h : get_correct_vial_for_date t = some v) :
    vial_window v (pySlice t 10) = true := by
  unfold get_correct_vial_for_date at h
  by_cases h0 : t = ""
  · simp [h0] at h
  · rw [if_neg h0] at h
    by_cases h1 : pyStrLt (pySlice t 10) "2025-09-13" = true
    · rw [if_pos h1] at h
      simp at h
      subst h
      simp [vial_window, h1]
    · rw [if_neg h1] at h
      have h1f : pyStrLt (pySlice t 10) "2025-09-13" = false := by
        cases hb : pyStrLt (pySlice t 10) "2025-09-13"
        · rfl
        · exact absurd hb h1
      by_cases h2 : pyStrLt (pySlice t 10) "2025-10-29" = true
      · rw [if_pos h2] at h
        simp at h
        subst h
        simp [vial_window, pyStrGe, h1f, h2]
      · rw [if_neg h2] at h
        simp at h
        subst h
        have h2f : pyStrLt (pySlice t 10) "2025-10-29" = false := by
          cases hb : pyStrLt (pySlice t 10) "2025-10-29"
          · rfl
          · exact absurd hb h2
        simp [vial_window, pyStrGe, h2f]

/-- A change record preserves the injection's key, timestamp, and records the
policy vial. -/
theorem change_for_correct (inj : Injection) (c : Change) (h : change_for inj = some c) :
    get_correct_vial_for_date inj.timestamp = some c.correct_vial ∧
      c.PK = inj.PK ∧ c.SK = inj.SK ∧ c.timestamp = inj.timestamp := by
  cases hv : get_correct_vial_for_date inj.timestamp with
  | none => simp [change_for, hv] at h
  | some v =>
    simp only [change_for, hv] at h
    by_cases hb : needs_change inj.vialId v = true
    · rw [if_pos hb] at h
      cases h
      exact ⟨rfl, rfl, rfl, rfl⟩
    · rw [if_neg hb] at h
      exact absurd h (by simp)

theorem change_for_none_of_policy_none (inj : Injection)
    (h : get_correct_vial_for_date inj.timestamp = Option.none) :
    change_for inj = Option.none := by
  simp [change_for, h]

theorem change_for_none_of_not_needed (inj : Injection) (v : String)
    (h : get_correct_vial_for_date inj.timestamp = some v)
    (hn : needs_change inj.vialId v = false) :
    change_for inj = Option.none := by
  simp [change_for, h, hn]

theorem change_for_some_of_needed (inj : Injection) (v : String)
    (h : get_correct_vial_for_date inj.timestamp = some v)
    (hn : needs_change inj.vialId v = true) :
    (change_for inj).isSome = true := by
  simp [change_for, h, hn]

theorem needs_change_false_elim (inj : Injection) (v : String)
    (h : get_correct_vial_for_date inj.timestamp = some v)
    (hc : change_for inj = Option.none) :
    inj.vialId = some v := by
  simp only [change_for, h] at hc
  by_cases hb : needs_change inj.vialId v = true
  · rw [if_pos hb] at hc
    exact absurd hc (by simp)
  · have hb' : needs_change inj.vialId v = false := by
      cases hnc : needs_change inj.vialId v
      · rfl
      · exact absurd hnc hb
    unfold needs_change at hb'
    cases hcv : inj.vialId with
    | none => rw [hcv] at hb'; simp at hb'
    | some cv =>
      rw [hcv] at hb'
      have hne := (Bool.or_eq_false_iff.mp hb').2
      have hcveq : cv = v := by
        by_contra hcne
        simp [bne, hcne] at hne
      rw [hcveq]

/-- C1: for every non-empty timestamp string `t`, the policy compares the
first 10 characters of `t` lexicographically against the ordered boundaries
and returns the vial of the half-open interval containing it, with
inclusive left boundaries: below "2025-09-13" the first-window vial, from
"2025-09-13" up to but excluding "2025-10-29" the second, and from
"2025-10-29" on the third. -/
theorem claim_C1 (t : String) (h : t ≠ "") :
    (pyStrLt (pySlice t 10) "2025-09-13" = true →
      get_correct_vial_for_date t = some "vial_20240805_1") ∧
    (pyStrGe (pySlice t 10) "2025-09-13" = true →
      pyStrLt (pySlice t 10) "2025-10-29" = true →
      get_correct_vial_for_date t = some "vial_20240805_2") ∧
    (pyStrGe (pySlice t 10) "2025-10-29" = true →
      get_correct_vial_for_date t = some "vial_20241029_1") := by
  refine ⟨fun h1 => ?_, fun h1 h2 => ?_, fun h2 => ?_⟩
  · unfold get_correct_vial_for_date
    rw [if_neg h, if_pos h1]
  · have h1f : pyStrLt (pySlice t 10) "2025-09-13" = false := by
      simpa [pyStrGe] using h1
    unfold get_correct_vial_for_date
    rw [if_neg h, if_neg (by simp [h1f]), if_pos h2]
  · have h2f : pyStrLt (pySlice t 10) "2025-10-29" = false := by
      simpa [pyStrGe] using h2
    have h1f : pyStrLt (pySlice t 10) "2025-09-13" = false := by
      cases hb : pyStrLt (pySlice t 10) "2025-09-13"
      · rfl
      · exact absurd (pyStrLt_trans (pySlice t 10) "2025-09-13" "2025-10-29" hb (by decide))
          (by simp [h2f])
    unfold get_correct_vial_for_date
    rw [if_neg h, if_neg (by simp [h1f]), if_neg (by simp [h2f])]

/-- C1 witness: the three concrete examples named by the claim. -/
theorem claim_C1_witness :
    get_correct_vial_for_date "2025-09-12T08:00" = some "vial_20240805_1" ∧
    get_correct_vial_for_date "2025-09-13T00:00" = some "vial_20240805_2" ∧
    get_correct_vial_for_date "2025-11-01T12:00" = some "vial_20241029_1" :=
  ⟨(claim_C1 "2025-09-12T08:00" (by decide)).1 (by decide),
   (claim_C1 "2025-09-13T00:00" (by decide)).2.1 (by decide) (by decide),
   (claim_C1 "2025-11-01T12:00" (by decide)).2.2 (by decide)⟩

/-- C2: for every input string, a non-`none` policy result is never one of
the dry-stock vials, and is always one of the three active vials. -/
theorem claim_C2 (t v : String) (h : get_correct_vial_for_date t = some v) :
    v ∉ DRY_STOCK_VIALS ∧
      (v = "vial_20240805_1" ∨ v = "vial_20240805_2" ∨ v = "vial_20241029_1") :=
  ⟨policy_not_dry t v h, policy_cases t v h⟩

/-- C2 witness: a concrete policy evaluation. -/
theorem claim_C2_witness :
    "vial_20241029_1" ∉ DRY_STOCK_VIALS ∧
      ("vial_20241029_1" = "vial_20240805_1" ∨ "vial_20241029_1" = "vial_20240805_2" ∨
        "vial_20241029_1" = "vial_20241029_1") :=
  claim_C2 "2025-11-05T09:00" "vial_20241029_1" (by decide)

/-- C3: for every injection whose timestamp yields a policy vial `v`, the
planner emits a change record exactly when the current association is null,
or is a dry-stock vial identity, or differs from `v`; and any emitted
change record carries `v` as its corrected vial.  (The source's substring
test `ds in str(current_vial)` is extensionally equivalent to the claim's
disjunction because no policy vial contains a dry-stock id.) -/
theorem claim_C3 (inj : Injection) (v : String)
    (h : get_correct_vial_for_date inj.timestamp = some v) :
    ((change_for inj).isSome = true ↔
      (inj.vialId = Option.none ∨
        (∃ cv, inj.vialId = some cv ∧ cv ∈ DRY_STOCK_VIALS) ∨
        inj.vialId ≠ some v)) ∧
    (∀ c, change_for inj = some c → c.correct_vial = v) := by
  constructor
  · have hsome : (change_for inj).isSome = needs_change inj.vialId v := by
      simp only [change_for, h]
      cases hb : needs_change inj.vialId v <;> simp [hb]
    rw [hsome]
    constructor
    · intro hn
      cases hcv : inj.vialId with
      | none => exact Or.inl rfl
      | some cv =>
        rw [hcv, needs_change_some_eq] at hn
        rcases (Bool.or_eq_true _ _).mp hn with hd | hb
        · refine Or.inr (Or.inr ?_)
          intro hEq
          cases hEq
          exact absurd hd (by simp [policy_no_dry_sub _ _ h])
        · refine Or.inr (Or.inr ?_)
          intro hEq
          cases hEq
          simp [bne] at hb
    · intro hor
      rcases hor with hnone | ⟨cv, hcv, hmem⟩ | hne
      · rw [hnone]; rfl
      · rw [hcv, needs_change_some_eq]
        have hself : py_in cv cv = true := by
          simp only [DRY_STOCK_VIALS, List.mem_cons, List.not_mem_nil, or_false] at hmem
          rcases hmem with rfl | rfl | rfl <;> decide
        refine (Bool.or_eq_true _ _).mpr (Or.inl ?_)
        exact List.any_eq_true.mpr ⟨cv, hmem, hself⟩
      · cases hcv : inj.vialId with
        | none => rfl
        | some cv =>
          rw [needs_change_some_eq]
          refine (Bool.or_eq_true _ _).mpr (Or.inr ?_)
          have hcvne : cv ≠ v := fun hEq => hne (by rw [hcv, hEq])
          simp [bne, hcvne]
  · intro c hc
    have hcc := (change_for_correct inj c hc).1
    rw [h] at hcc
    exact (Option.some.inj hcc).symm

/-- C3 witness: an injection currently on the dry-stock vial
vial_20241029_3 with timestamp "2025-11-05T09:00" is flagged for change,
and the corrected vial is vial_20241029_1. -/
theorem claim_C3_witness :
    (change_for ⟨"USER#1", "INJ#dry", "2025-11-05T09:00", Option.none,
        some "vial_20241029_3", Option.none⟩).isSome = true ∧
    ∀ c, change_for ⟨"USER#1", "INJ#dry", "2025-11-05T09:00", Option.none,
        some "vial_20241029_3", Option.none⟩ = some c →
      c.correct_vial = "vial_20241029_1" := by
  have h : get_correct_vial_for_date
      (⟨"USER#1", "INJ#dry", "2025-11-05T09:00", Option.none,
        some "vial_20241029_3", Option.none⟩ : Injection).timestamp =
      some "vial_20241029_1" := by decide
  exact ⟨(claim_C3 _ _ h).1.mpr (Or.inr (Or.inl ⟨"vial_20241029_3", rfl, by decide⟩)),
    (claim_C3 _ _ h).2⟩

/-- C8 counterexample: "not-a-date" is a non-empty, unparseable timestamp,
yet the policy does not return `none` — the garbage string is compared
lexicographically and assigned the third vial. -/
theorem claim_C8_cex :
    get_correct_vial_for_date "not-a-date" = some "vial_20241029_1" ∧
    get_correct_vial_for_date "not-a-date" ≠ Option.none := by decide

/-- C8 (amended): the policy returns `none` exactly for the empty timestamp
string — there is no parse validation, every non-empty string (parseable or
not) is assigned a vial — and an injection with an empty timestamp is
excluded from the change-set and reported in the skip diagnostics. -/
theorem claim_C8 (t : String) (injections : List Injection) (inj : Injection)
    (h1 : inj ∈ injections) (h2 : inj.timestamp = "") :
    (get_correct_vial_for_date t = Option.none ↔ t = "") ∧
    change_for inj = Option.none ∧
    inj.timestamp ∈ skipped_timestamps injections := by
  refine ⟨policy_none_iff t, ?_, ?_⟩
  · exact change_for_none_of_policy_none inj ((policy_none_iff inj.timestamp).mpr h2)
  · unfold skipped_timestamps
    refine List.mem_map.mpr ⟨inj, List.mem_filter.mpr ⟨h1, ?_⟩, rfl⟩
    simp [(policy_none_iff inj.timestamp).mpr h2]

/-- C8 witness: a concrete empty-timestamp injection is skipped and
reported. -/
theorem claim_C8_witness :
    (get_correct_vial_for_date "" = Option.none ↔ "" = "") ∧
    change_for ⟨"USER#1", "INJ#empty", "", Option.none, Option.none, Option.none⟩ =
      Option.none ∧
    (⟨"USER#1", "INJ#empty", "", Option.none, Option.none, Option.none⟩ :
        Injection).timestamp ∈
      skipped_timestamps
        [⟨"USER#1", "INJ#empty", "", Option.none, Option.none, Option.none⟩] :=
  claim_C8 "" _ _ (by decide) rfl

/-- C4: idempotence of the plan/apply cycle — applying the computed
change-set and re-running the planner on the post-apply data produces an
empty change-set. -/
theorem claim_C4 (injections : List Injection) :
    compute_changes (apply_changes injections) = [] := by
  unfold compute_changes apply_changes
  rw [List.filterMap_map]
  refine List.filterMap_eq_nil_iff.mpr fun inj _ => ?_
  simp only [Function.comp]
  cases h0 : change_for inj with
  | none => simp [h0]
  | some c =>
    simp only [h0]
    have hp := (change_for_correct inj c h0).1
    exact change_for_none_of_not_needed _ _ hp (needs_change_self _ _ hp)

theorem apply_loop_spec (f : Change → Bool) (now : String) :
    ∀ (cs : List Change) (st : List Injection) (sc ec : Nat) (att : List Change),
      apply_loop f now cs st sc ec att =
        (st.map fun i => cs.foldl (fun j c => if f c then upd_one now c j else j) i,
         sc + (cs.filter f).length,
         ec + (cs.filter fun c => !f c).length,
         att ++ cs)
  | [], st, sc, ec, att => by
    simp [apply_loop]
  | c :: cs, st, sc, ec, att => by
    by_cases hc : f c = true
    · have step1 : apply_loop f now (c :: cs) st sc ec att
          = apply_loop f now cs (update_store now st c) (sc + 1) ec (att ++ [c]) := by
        simp [apply_loop, hc]
      rw [step1, apply_loop_spec f now cs]
      simp [update_store, List.map_map, Function.comp, hc, List.filter_cons,
        Nat.add_assoc, Nat.add_comm, Nat.add_left_comm]
    · have hcf : f c = false := by
        cases hb : f c
        · rfl
        · exact absurd hb hc
      have step1 : apply_loop f now (c :: cs) st sc ec att
          = apply_loop f now cs st sc (ec + 1) (att ++ [c]) := by
        simp [apply_loop, hcf]
      rw [step1, apply_loop_spec f now cs]
      simp [hcf, List.filter_cons, Nat.add_assoc, Nat.add_comm, Nat.add_left_comm]

theorem foldl_upd_no_match (now : String) :
    ∀ (cs : List Change) (i : Injection),
      (∀ c ∈ cs, ¬(i.PK = c.PK ∧ i.SK = c.SK)) →
      cs.foldl (fun j c => upd_one now c j) i = i
  | [], _, _ => rfl
  | c :: cs, i, h => by
    rw [List.foldl_cons]
    have hid : upd_one now c i = i := by
      unfold upd_one
      rw [if_neg (h c (List.mem_cons_self c cs))]
    rw [hid]
    exact foldl_upd_no_match now cs i fun c' hc' => h c' (List.mem_cons_of_mem c hc')

theorem foldl_upd_after_set (now : String) :
    ∀ (cs : List Change) (i : Injection) (c0 : Change),
      (∀ c ∈ cs, (c.PK = i.PK ∧ c.SK = i.SK) → c = c0) →
      cs.foldl (fun j c => upd_one now c j)
          { i with vialId := some c0.correct_vial, updatedAt := some now } =
        { i with vialId := some c0.correct_vial, updatedAt := some now }
  | [], _, _, _ => rfl
  | c :: cs, i, c0, h => by
    rw [List.foldl_cons]
    by_cases hm : i.PK = c.PK ∧ i.SK = c.SK
    · have hc0 : c = c0 := h c (List.mem_cons_self c cs) ⟨hm.1.symm, hm.2.symm⟩
      subst hc0
      have hset : upd_one now c
            { i with vialId := some c.correct_vial, updatedAt := some now } =
          { i with vialId := some c.correct_vial, updatedAt := some now } := by
        unfold upd_one
        rw [if_pos]
        exact hm
      rw [hset]
      exact foldl_upd_after_set now cs i c fun c' hc' => h c' (List.mem_cons_of_mem c hc')
    · have hid : upd_one now c
            { i with vialId := some c0.correct_vial, updatedAt := some now } =
          { i with vialId := some c0.correct_vial, updatedAt := some now } := by
        unfold upd_one
        rw [if_neg]
        exact hm
      rw [hid]
      exact foldl_upd_after_set now cs i c0 fun c' hc' => h c' (List.mem_cons_of_mem c hc')

theorem foldl_upd_with_match (now : String) :
    ∀ (cs : List Change) (i : Injection) (c0 : Change),
      c0.PK = i.PK → c0.SK = i.SK → c0 ∈ cs →
      (∀ c ∈ cs, (c.PK = i.PK ∧ c.SK = i.SK) → c = c0) →
      cs.foldl (fun j c => upd_one now c j) i =
        { i with vialId := some c0.correct_vial, updatedAt := some now }
  | [], _, _, _, _, hmem, _ => absurd hmem (List.not_mem_nil _)
  | c :: cs, i, c0, hPK, hSK, hmem, hall => by
    rw [List.foldl_cons]
    by_cases hm : i.PK = c.PK ∧ i.SK = c.SK
    · have hc0 : c = c0 := hall c (List.mem_cons_self c cs) ⟨hm.1.symm, hm.2.symm⟩
      subst hc0
      have hset : upd_one now c i =
          { i with vialId := some c.correct_vial, updatedAt := some now } := by
        unfold upd_one
        rw [if_pos hm]
      rw [hset]
      exact foldl_upd_after_set now cs i c fun c' hc' => hall c' (List.mem_cons_of_mem c hc')
    · have hc0cs : c0 ∈ cs := by
        rcases List.mem_cons.mp hmem with rfl | hcs
        · exact absurd ⟨hPK.symm, hSK.symm⟩ hm
        · exact hcs
      have hid : upd_one now c i = i := by
        unfold upd_one
        rw [if_neg hm]
      rw [hid]
      exact foldl_upd_with_match now cs i c0 hPK hSK hc0cs
        fun c' hc' => hall c' (List.mem_cons_of_mem c hc')

/-- On a uniquely-keyed store, folding the keyed `update_item` writes for the
whole change-set over one record applies exactly that record's own change
(if any). -/
theorem post_apply_pointwise (st : List Injection) (now : String)
    (hnd : (st.map key).Nodup) (i : Injection) (hi : i ∈ st) :
    (compute_changes st).foldl (fun j c => upd_one now c j) i =
      (match change_for i with
       | some c0 => { i with vialId := some c0.correct_vial, updatedAt := some now }
       | Option.none => i) := by
  have hall : ∀ c ∈ compute_changes st, (c.PK = i.PK ∧ c.SK = i.SK) →
      change_for i = some c := by
    intro c hc hkc
    obtain ⟨j, hj, hcj⟩ := List.mem_filterMap.mp hc
    obtain ⟨_, hjpk, hjsk, _⟩ := change_for_correct j c hcj
    have hkey : key j = key i := by
      unfold key
      rw [← hjpk, ← hjsk, hkc.1, hkc.2]
    have hji : j = i := List.inj_on_of_nodup_map hnd hj hi hkey
    rw [← hji]
    exact hcj
  cases h0 : change_for i with
  | none =>
    refine foldl_upd_no_match now _ i fun c hc hkc => ?_
    have := hall c hc ⟨hkc.1.symm, hkc.2.symm⟩
    rw [h0] at this
    exact absurd this (by simp)
  | some c0 =>
    obtain ⟨_, hc0pk, hc0sk, _⟩ := change_for_correct i c0 h0
    refine foldl_upd_with_match now _ i c0 hc0pk hc0sk ?_ ?_
    · exact List.mem_filterMap.mpr ⟨i, hi, h0⟩
    · intro c hc hkc
      have := hall c hc hkc
      rw [h0] at this
      exact (Option.some.inj this).symm

theorem length_filter_add_length_not (f : Change → Bool) :
    ∀ cs : List Change,
      (cs.filter f).length + (cs.filter fun c => !f c).length = cs.length
  | [] => rfl
  | c :: cs => by
    have ih := length_filter_add_length_not f cs
    rw [List.filter_cons, List.filter_cons]
    cases hb : f c <;> simp [hb] <;> omega

/-- In a live run that does not abort, the final store is the fold of the
per-change keyed updates, every change is attempted, and the counters count
the successful and failed update calls. -/
theorem run_main_live_ok (f : Change → Bool) (now : String) (st : List Injection)
    (h : (run_main false f now st).uncaught = Option.none) :
    (run_main false f now st).store =
        (st.map fun i => (compute_changes st).foldl
          (fun j c => if f c then upd_one now c j else j) i) ∧
    (run_main false f now st).attempts = compute_changes st ∧
    (run_main false f now st).success_count = ((compute_changes st).filter f).length ∧
    (run_main false f now st).error_count =
      ((compute_changes st).filter fun c => !f c).length := by
  unfold run_main at h ⊢
  by_cases he : (compute_changes st).isEmpty
  · rw [if_pos he]
    have hnil : compute_changes st = [] := List.isEmpty_iff.mp he
    rw [hnil]
    simp
  · rw [if_neg he] at h ⊢
    cases hs : sort_expected (expected_items st) with
    | none =>
      rw [hs] at h
      simp at h
    | some se =>
      rw [apply_loop_spec f now (compute_changes st) st 0 0 []]
      simp

/-- C5 (amended): after a live run on a uniquely-keyed store that completes
without an uncaught error and in which every update succeeds, every
injection whose timestamp yields a policy vial carries exactly that vial,
which is not dry stock and whose usable window contains the injection's
date.  (The unamended claim fails for injections with empty timestamps:
they are skipped and keep their old association, see the counterexample.) -/
theorem claim_C5 (st : List Injection) (now : String)
    (hnd : (st.map key).Nodup)
    (hok : (run_main false (fun _ => true) now st).uncaught = Option.none) :
    ∀ i ∈ (run_main false (fun _ => true) now st).store, ∀ v,
      get_correct_vial_for_date i.timestamp = some v →
      i.vialId = some v ∧ v ∉ DRY_STOCK_VIALS ∧
        vial_window v (pySlice i.timestamp 10) = true := by
  have hstore := (run_main_live_ok (fun _ => true) now st hok).1
  rw [hstore]
  intro i' hi'
  obtain ⟨i, hi, hfi⟩ := List.mem_map.mp hi'
  have hfi' : i' = (compute_changes st).foldl (fun j c => upd_one now c j) i := by
    rw [← hfi]
    simp
  rw [hfi', post_apply_pointwise st now hnd i hi]
  cases h0 : change_for i with
  | none =>
    dsimp only
    intro v hv
    exact ⟨needs_change_false_elim i v hv h0, policy_not_dry _ _ hv, policy_window _ _ hv⟩
  | some c0 =>
    dsimp only
    intro v hv
    have hcv : get_correct_vial_for_date i.timestamp = some c0.correct_vial :=
      (change_for_correct i c0 h0).1
    have hveq : c0.correct_vial = v := by
      rw [hv] at hcv
      exact (Option.some.inj hcv).symm
    rw [hveq]
    exact ⟨rfl, policy_not_dry _ _ hv, policy_window _ _ hv⟩

/-- C5 counterexample: a live run in which every update succeeds (there are
zero updates and zero errors) can leave an injection with a null
association, because an empty-timestamp injection is skipped, refuting the
unqualified post-reconciliation invariant. -/
theorem claim_C5_cex :
    (run_main false (fun _ => true) "2025-12-01T00:00:00Z"
        [⟨"USER#1", "INJ#0", "", Option.none, Option.none, Option.none⟩]).uncaught =
      Option.none ∧
    (run_main false (fun _ => true) "2025-12-01T00:00:00Z"
        [⟨"USER#1", "INJ#0", "", Option.none, Option.none, Option.none⟩]).error_count = 0 ∧
    ((run_main false (fun _ => true) "2025-12-01T00:00:00Z"
        [⟨"USER#1", "INJ#0", "", Option.none, Option.none, Option.none⟩]).store.any
      fun i => i.vialId.isNone) = true := by decide

/-- C5 witness: a concrete dry-stock-assigned injection is repaired by a
live run and lands in its policy vial's window. -/
theorem claim_C5_witness :
    (⟨"USER#1", "INJ#1", "2025-11-05T09:00", Option.none, some "vial_20241029_1",
        some "2025-12-01T00:00:00Z"⟩ : Injection).vialId = some "vial_20241029_1" ∧
    "vial_20241029_1" ∉ DRY_STOCK_VIALS ∧
    vial_window "vial_20241029_1"
      (pySlice (⟨"USER#1", "INJ#1", "2025-11-05T09:00", Option.none,
        some "vial_20241029_1", some "2025-12-01T00:00:00Z"⟩ : Injection).timestamp 10) =
      true :=
  claim_C5
    [⟨"USER#1", "INJ#1", "2025-11-05T09:00", Option.none, some "vial_20241029_3",
       Option.none⟩]
    "2025-12-01T00:00:00Z" (by decide) (by decide)
    ⟨"USER#1", "INJ#1", "2025-11-05T09:00", Option.none, some "vial_20241029_1",
      some "2025-12-01T00:00:00Z"⟩
    (by decide) "vial_20241029_1" (by decide)

/-- C6: the dry-run frame property — a dry-run invocation never changes the
store, issues no update attempts and counts no successes or failures, for
every store, update oracle and timestamp.  However, the claim's "exits
without error after printing the change-set and expected distribution"
fails: with one unresolvable-timestamp injection alongside a needed change,
Python's `sorted(expected.items())` compares a `None` key with a string key
and raises an uncaught `TypeError` (the second conjunct evaluates the
failing input). -/
theorem claim_C6 :
    (∀ (store : List Injection) (f : Change → Bool) (now : String),
      (run_main true f now store).store = store ∧
      (run_main true f now store).attempts = [] ∧
      (run_main true f now store).success_count = 0 ∧
      (run_main true f now store).error_count = 0) ∧
    ((run_main true (fun _ => true) "2025-12-01T00:00:00Z"
        [⟨"USER#1", "INJ#1", "", Option.none, Option.none, Option.none⟩,
         ⟨"USER#1", "INJ#2", "2025-11-05T09:00", Option.none,
           some "vial_20241029_3", Option.none⟩]).uncaught).isSome = true := by
  constructor
  · intro store f now
    unfold run_main
    by_cases he : (compute_changes store).isEmpty
    · rw [if_pos he]
      exact ⟨rfl, rfl, rfl, rfl⟩
    · rw [if_neg he]
      cases hs : sort_expected (expected_items store) with
      | none => exact ⟨rfl, rfl, rfl, rfl⟩
      | some se => exact ⟨rfl, rfl, rfl, rfl⟩
  · decide

/-- C7 (amended): whenever a live run reaches the apply phase (no uncaught
error from the reporting step), updates are issued one per change record in
change-set order, failures are counted without aborting the batch, and the
success and failure counts sum to the change-set size.  (Without that
qualification the claim fails: an unresolvable timestamp alongside a
nonempty change-set crashes the run before any update is attempted, see the
counterexample.) -/
theorem claim_C7 (store : List Injection) (f : Change → Bool) (now : String)
    (h : (run_main false f now store).uncaught = Option.none) :
    (run_main false f now store).attempts = compute_changes store ∧
    (run_main false f now store).success_count + (run_main false f now store).error_count =
      (compute_changes store).length ∧
    (run_main false f now store).success_count =
      ((compute_changes store).filter f).length ∧
    (run_main false f now store).error_count =
      ((compute_changes store).filter fun c => !f c).length := by
  obtain ⟨_, hatt, hsc, hec⟩ := run_main_live_ok f now store h
  refine ⟨hatt, ?_, hsc, hec⟩
  rw [hsc, hec]
  exact length_filter_add_length_not f (compute_changes store)

/-- C7 counterexample: on a store with one unresolvable-timestamp injection
and one change needed, the live run aborts before the apply phase: no
update is attempted although the change-set is nonempty, and the counters
do not sum to the change-set size. -/
theorem claim_C7_cex :
    (run_main false (fun _ => true) "2025-12-01T00:00:00Z"
        [⟨"USER#1", "INJ#1", "", Option.none, Option.none, Option.none⟩,
         ⟨"USER#1", "INJ#2", "2025-11-05T09:00", Option.none,
           some "vial_20241029_3", Option.none⟩]).attempts = [] ∧
    (compute_changes
        [⟨"USER#1", "INJ#1", "", Option.none, Option.none, Option.none⟩,
         ⟨"USER#1", "INJ#2", "2025-11-05T09:00", Option.none,
           some "vial_20241029_3", Option.none⟩]).length = 1 ∧
    (run_main false (fun _ => true) "2025-12-01T00:00:00Z"
        [⟨"USER#1", "INJ#1", "", Option.none, Option.none, Option.none⟩,
         ⟨"USER#1", "INJ#2", "2025-11-05T09:00", Option.none,
           some "vial_20241029_3", Option.none⟩]).success_count +
      (run_main false (fun _ => true) "2025-12-01T00:00:00Z"
        [⟨"USER#1", "INJ#1", "", Option.none, Option.none, Option.none⟩,
         ⟨"USER#1", "INJ#2", "2025-11-05T09:00", Option.none,
           some "vial_20241029_3", Option.none⟩]).error_count ≠ 1 := by decide

/-- C7 witness: a two-change live run with one failing update — both
changes attempted in order, one success and one failure, summing to the
change-set size. -/
theorem claim_C7_witness :
    (run_main false (fun c => c.SK == "INJ#A") "2025-12-01T00:00:00Z"
        [⟨"USER#1", "INJ#A", "2025-09-12T08:00", Option.none, Option.none, Option.none⟩,
         ⟨"USER#1", "INJ#B", "2025-09-13T00:00", Option.none, some "wrong",
           Option.none⟩]).attempts =
      compute_changes
        [⟨"USER#1", "INJ#A", "2025-09-12T08:00", Option.none, Option.none, Option.none⟩,
         ⟨"USER#1", "INJ#B", "2025-09-13T00:00", Option.none, some "wrong",
           Option.none⟩] ∧
    (run_main false (fun c => c.SK == "INJ#A") "2025-12-01T00:00:00Z"
        [⟨"USER#1", "INJ#A", "2025-09-12T08:00", Option.none, Option.none, Option.none⟩,
         ⟨"USER#1", "INJ#B", "2025-09-13T00:00", Option.none, some "wrong",
           Option.none⟩]).success_count +
      (run_main false (fun c => c.SK == "INJ#A") "2025-12-01T00:00:00Z"
        [⟨"USER#1", "INJ#A", "2025-09-12T08:00", Option.none, Option.none, Option.none⟩,
         ⟨"USER#1", "INJ#B", "2025-09-13T00:00", Option.none, some "wrong",
           Option.none⟩]).error_count =
      (compute_changes
        [⟨"USER#1", "INJ#A", "2025-09-12T08:00", Option.none, Option.none, Option.none⟩,
         ⟨"USER#1", "INJ#B", "2025-09-13T00:00", Option.none, some "wrong",
           Option.none⟩]).length ∧
    (run_main false (fun c => c.SK == "INJ#A") "2025-12-01T00:00:00Z"
        [⟨"USER#1", "INJ#A", "2025-09-12T08:00", Option.none, Option.none, Option.none⟩,
         ⟨"USER#1", "INJ#B", "2025-09-13T00:00", Option.none, some "wrong",
           Option.none⟩]).success_count =
      ((compute_changes
        [⟨"USER#1", "INJ#A", "2025-09-12T08:00", Option.none, Option.none, Option.none⟩,
         ⟨"USER#1", "INJ#B", "2025-09-13T00:00", Option.none, some "wrong",
           Option.none⟩]).filter fun c => c.SK == "INJ#A").length ∧
    (run_main false (fun c => c.SK == "INJ#A") "2025-12-01T00:00:00Z"
        [⟨"USER#1", "INJ#A", "2025-09-12T08:00", Option.none, Option.none, Option.none⟩,
         ⟨"USER#1", "INJ#B", "2025-09-13T00:00", Option.none, some "wrong",
           Option.none⟩]).error_count =
      ((compute_changes
        [⟨"USER#1", "INJ#A", "2025-09-12T08:00", Option.none, Option.none, Option.none⟩,
         ⟨"USER#1", "INJ#B", "2025-09-13T00:00", Option.none, some "wrong",
           Option.none⟩]).filter fun c => !(c.SK == "INJ#A")).length :=
  claim_C7
    [⟨"USER#1", "INJ#A", "2025-09-12T08:00", Option.none, Option.none, Option.none⟩,
     ⟨"USER#1", "INJ#B", "2025-09-13T00:00", Option.none, some "wrong", Option.none⟩]
    (fun c => c.SK == "INJ#A") "2025-12-01T00:00:00Z" (by decide)

theorem decVal?_decChar (d : Nat) (h : d < 10) : decVal? (decChar d) = some d := by
  interval_cases d <;> decide

theorem decChar_ne_dot (d : Nat) (h : d < 10) : decChar d ≠ '.' := by
  interval_cases d <;> decide

theorem decChar_ne_dash (d : Nat) (h : d < 10) : decChar d ≠ '-' := by
  interval_cases d <;> decide

theorem decValsBE_map_decChar : ∀ ds : List Nat, (∀ d ∈ ds, d < 10) →
    decValsBE (ds.map decChar) = some ds
  | [], _ => rfl
  | d :: ds, h => by
    have hd := h d (List.mem_cons_self d ds)
    have ih := decValsBE_map_decChar ds fun x hx => h x (List.mem_cons_of_mem d hx)
    simp only [List.map_cons, decValsBE, decVal?_decChar d hd, ih]

theorem hasDot_eq_false : ∀ l : List Char, (∀ c ∈ l, c ≠ '.') → hasDot l = false
  | [], _ => rfl
  | c :: t, h => by
    have hc := h c (List.mem_cons_self c t)
    simp only [hasDot, if_neg hc]
    exact hasDot_eq_false t fun x hx => h x (List.mem_cons_of_mem c hx)

theorem splitDot_append : ∀ xs ys : List Char,
    (∀ c ∈ xs, c ≠ '.') → (∀ c ∈ ys, c ≠ '.') →
    splitDot (xs ++ '.' :: ys) = some (xs, ys)
  | [], ys, _, hy => by
    simp only [List.nil_append, splitDot, if_pos rfl, hasDot_eq_false ys hy]
    rfl
  | x :: xs, ys, hx, hy => by
    have hxne : x ≠ '.' := hx x (List.mem_cons_self x xs)
    have ih := splitDot_append xs ys (fun c hc => hx c (List.mem_cons_of_mem x hc)) hy
    simp only [List.cons_append, splitDot, if_neg hxne, List.append_eq, ih, Option.map_some']

theorem natDigitsLE_ofDigits : ∀ fuel n : Nat, n ≤ fuel →
    Nat.ofDigits 10 (natDigitsLE fuel n) = n
  | 0, n, h => by
    have hn : n = 0 := Nat.le_zero.mp h
    subst hn
    rfl
  | fuel + 1, 0, _ => rfl
  | fuel + 1, n + 1, h => by
    have hlt : (n + 1) / 10 < n + 1 := Nat.div_lt_self (Nat.succ_pos n) (by norm_num)
    have hdiv : (n + 1) / 10 ≤ fuel := by omega
    simp only [natDigitsLE, Nat.ofDigits_cons, natDigitsLE_ofDigits fuel ((n + 1) / 10) hdiv]
    omega

theorem natDigitsLE_lt : ∀ fuel n : Nat, ∀ d ∈ natDigitsLE fuel n, d < 10
  | 0, n => by simp [natDigitsLE]
  | fuel + 1, 0 => by simp [natDigitsLE]
  | fuel + 1, n + 1 => by
    intro d hd
    simp only [natDigitsLE, List.mem_cons] at hd
    rcases hd with rfl | hd
    · exact Nat.mod_lt _ (by norm_num)
    · exact natDigitsLE_lt fuel ((n + 1) / 10) d hd

theorem ofDigits_replicate_zero : ∀ m : Nat, Nat.ofDigits 10 (List.replicate m 0) = 0
  | 0 => rfl
  | m + 1 => by
    simp [List.replicate_succ, Nat.ofDigits_cons, ofDigits_replicate_zero m]

theorem digs_ofDigits (n : Nat) : Nat.ofDigits 10 (digs n) = n :=
  natDigitsLE_ofDigits n n le_rfl

theorem digs_lt (n : Nat) : ∀ d ∈ digs n, d < 10 :=
  natDigitsLE_lt n n

theorem pyFloatCore_assemble (padded : List Nat) (k : Nat) (hk : 1 ≤ k)
    (hlen : k + 1 ≤ padded.length) (hd10 : ∀ d ∈ padded, d < 10) :
    pyFloatCore (((padded.drop k).reverse.map decChar) ++
        '.' :: ((padded.take k).reverse.map decChar)) =
      some (((Nat.ofDigits 10 padded : Nat) : Rat) / (10 : Rat) ^ k) := by
  have hxs : ∀ c ∈ (padded.drop k).reverse.map decChar, c ≠ '.' := by
    intro c hc
    obtain ⟨d, hd, rfl⟩ := List.mem_map.mp hc
    exact decChar_ne_dot d (hd10 d (List.mem_of_mem_drop (List.mem_reverse.mp hd)))
  have hys : ∀ c ∈ (padded.take k).reverse.map decChar, c ≠ '.' := by
    intro c hc
    obtain ⟨d, hd, rfl⟩ := List.mem_map.mp hc
    exact decChar_ne_dot d (hd10 d (List.mem_of_mem_take (List.mem_reverse.mp hd)))
  have hiplen : ((padded.drop k).reverse.map decChar).length = padded.length - k := by
    simp
  have hfplen : ((padded.take k).reverse.map decChar).length = k := by
    simp only [List.length_map, List.length_reverse, List.length_take]
    omega
  have hipE : ((padded.drop k).reverse.map decChar).isEmpty = false := by
    cases hc : (padded.drop k).reverse.map decChar with
    | nil =>
      rw [hc] at hiplen
      simp at hiplen
      omega
    | cons _ _ => rfl
  have hfpE : ((padded.take k).reverse.map decChar).isEmpty = false := by
    cases hc : (padded.take k).reverse.map decChar with
    | nil =>
      rw [hc] at hfplen
      simp at hfplen
      omega
    | cons _ _ => rfl
  have hdva : decValsBE ((padded.drop k).reverse.map decChar) = some (padded.drop k).reverse :=
    decValsBE_map_decChar _ fun d hd => hd10 d (List.mem_of_mem_drop (List.mem_reverse.mp hd))
  have hdvb : decValsBE ((padded.take k).reverse.map decChar) = some (padded.take k).reverse :=
    decValsBE_map_decChar _ fun d hd => hd10 d (List.mem_of_mem_take (List.mem_reverse.mp hd))
  simp only [pyFloatCore, splitDot_append _ _ hxs hys, hipE, hfpE, Bool.or_self, if_false,
    hdva, hdvb, List.reverse_reverse, hfplen, List.take_append_drop]
  simp

theorem pyFloat_mk_dash (l : List Char) :
    pyFloat ⟨'-' :: l⟩ = (pyFloatCore l).map fun q => -q := rfl

theorem pyFloat_mk_no_dash (c : Char) (l : List Char) (h : c ≠ '-') :
    pyFloat ⟨c :: l⟩ = pyFloatCore (c :: l) := by
  unfold pyFloat
  split
  · rename_i rest heq
    rw [show (⟨c :: l⟩ : String).data = c :: l from rfl] at heq
    cases heq
    exact absurd rfl h
  · rfl

theorem pyFloat_render_dec (negb : Bool) (m k : Nat) (hk : 1 ≤ k) :
    pyFloat (render_dec negb m k) =
      some ((cond negb (-1) 1) * (m : Rat) / (10 : Rat) ^ k) := by
  have hlen : k + 1 ≤ (digs m ++ List.replicate (k + 1 - (digs m).length) 0).length := by
    simp only [List.length_append, List.length_replicate]
    omega
  have hd10 : ∀ d ∈ digs m ++ List.replicate (k + 1 - (digs m).length) 0, d < 10 := by
    intro d hd
    rcases List.mem_append.mp hd with hd | hd
    · exact natDigitsLE_lt m m d hd
    · rw [List.eq_of_mem_replicate hd]
      norm_num
  have hofd : Nat.ofDigits 10 (digs m ++ List.replicate (k + 1 - (digs m).length) 0) = m := by
    rw [Nat.ofDigits_append, digs_ofDigits, ofDigits_replicate_zero]
    simp
  have hcore := pyFloatCore_assemble
    (digs m ++ List.replicate (k + 1 - (digs m).length) 0) k hk hlen hd10
  simp only [hofd] at hcore
  cases negb with
  | true =>
    have hdata : render_dec true m k =
        ⟨'-' :: ((((digs m ++ List.replicate (k + 1 - (digs m).length) 0).drop k).reverse.map
            decChar) ++
          '.' :: (((digs m ++ List.replicate (k + 1 - (digs m).length) 0).take k).reverse.map
            decChar))⟩ := rfl
    rw [hdata, pyFloat_mk_dash, hcore]
    simp only [Option.map_some', cond_true]
    refine congrArg some ?_
    ring
  | false =>
    cases hip : ((digs m ++ List.replicate (k + 1 - (digs m).length) 0).drop k).reverse.map
        decChar with
    | nil =>
      have := congrArg List.length hip
      simp only [List.length_map, List.length_reverse, List.length_drop, List.length_nil] at this
      omega
    | cons c t =>
      have hcmem : c ∈ ((digs m ++ List.replicate (k + 1 - (digs m).length) 0).drop
          k).reverse.map decChar := by
        rw [hip]
        exact List.mem_cons_self c t
      obtain ⟨d, hd, hcd⟩ := List.mem_map.mp hcmem
      have hcne : c ≠ '-' := by
        rw [← hcd]
        exact decChar_ne_dash d (hd10 d (List.mem_of_mem_drop (List.mem_reverse.mp hd)))
      have hdata : render_dec false m k =
          ⟨c :: (t ++
            '.' :: (((digs m ++ List.replicate (k + 1 - (digs m).length) 0).take
              k).reverse.map decChar))⟩ := by
        unfold render_dec
        rw [if_neg (by simp), List.nil_append, hip, List.cons_append]
      rw [hdata, pyFloat_mk_no_dash c _ hcne, ← List.cons_append, ← hip, hcore]
      refine congrArg some ?_
      simp only [cond_false, one_mul]

/-- Number round trip: parsing the rendered decimal of a rational with a
2-and-5-smooth denominator recovers it exactly. -/
theorem pyFloat_py_str_num (q : Rat) (a b : Nat) (hden : q.den = 2 ^ a * 5 ^ b) :
    pyFloat (py_str_num q) = some q := by
  unfold py_str_num
  rw [pyFloat_render_dec (decide (q.num < 0)) _ _ (le_max_left 1 q.den)]
  set k := max 1 q.den with hkdef
  set scaled := q.num * (10 : Int) ^ k / (q.den : Int) with hscdef
  have hden_le : q.den ≤ k := le_max_right 1 q.den
  have ha : a ≤ k := by
    have h2a : 2 ^ a ≤ q.den := by
      rw [hden]
      exact Nat.le_mul_of_pos_right _ (pow_pos (by norm_num) b)
    have := Nat.lt_two_pow a
    omega
  have hb : b ≤ k := by
    have h5b : 5 ^ b ≤ q.den := by
      rw [hden]
      exact Nat.le_mul_of_pos_left _ (pow_pos (by norm_num) a)
    have hb2 := Nat.lt_two_pow b
    have h25 : 2 ^ b ≤ 5 ^ b := Nat.pow_le_pow_left (by norm_num) b
    omega
  have hdvd : q.den ∣ 10 ^ k := by
    have h10 : (10 : Nat) ^ k = 2 ^ k * 5 ^ k := by
      rw [← Nat.mul_pow]
    rw [h10, hden]
    exact Nat.mul_dvd_mul (Nat.pow_dvd_pow 2 ha) (Nat.pow_dvd_pow 5 hb)
  have hdvdZ : (q.den : Int) ∣ q.num * (10 : Int) ^ k := by
    refine Dvd.dvd.mul_left ?_ q.num
    have := Int.natCast_dvd_natCast.mpr hdvd
    push_cast at this
    exact this
  have hexact : scaled * (q.den : Int) = q.num * (10 : Int) ^ k := Int.ediv_mul_cancel hdvdZ
  have hdpos : (0 : Int) < (q.den : Int) := by exact_mod_cast q.den_pos
  have hden0 : (q.den : Rat) ≠ 0 := by
    have := q.den_pos
    positivity
  have hval : (scaled : Rat) / (10 : Rat) ^ k = q := by
    have h10 : ((10 : Rat) ^ k) ≠ 0 := by positivity
    rw [div_eq_iff h10]
    have hcast : (scaled : Rat) * (q.den : Rat) = (q.num : Rat) * (10 : Rat) ^ k := by
      exact_mod_cast hexact
    have hq : (q.num : Rat) = q * (q.den : Rat) := by
      have hnd := Rat.num_div_den q
      rw [div_eq_iff hden0] at hnd
      exact hnd
    rw [hq] at hcast
    apply mul_right_cancel₀ hden0
    rw [hcast]
    ring
  by_cases hneg : q.num < 0
  · have hsc_neg : scaled < 0 := by
      by_contra hge
      push_neg at hge
      have hnn : 0 ≤ scaled * (q.den : Int) := mul_nonneg hge (le_of_lt hdpos)
      rw [hexact] at hnn
      have hpow : (0 : Int) < 10 ^ k := by positivity
      nlinarith
    have habs : ((scaled.natAbs : Nat) : Rat) = -((scaled : Int) : Rat) := by
      rw [Int.cast_natAbs, abs_of_neg hsc_neg]
      push_cast
      ring
    rw [decide_eq_true hneg]
    refine congrArg some ?_
    rw [show (cond true (-1) 1 : Rat) = -1 from rfl, habs, ← hval]
    ring
  · have hsc_nonneg : 0 ≤ scaled :=
      Int.ediv_nonneg (mul_nonneg (not_lt.mp hneg) (by positivity)) (le_of_lt hdpos)
    have habs : ((scaled.natAbs : Nat) : Rat) = ((scaled : Int) : Rat) := by
      rw [Int.cast_natAbs, abs_of_nonneg hsc_nonneg]
    rw [decide_eq_false hneg]
    refine congrArg some ?_
    rw [show (cond false (-1) 1 : Rat) = 1 from rfl, habs, ← hval]
    ring

/-- C10: the `bool` branch of `format_dynamo_value` is unreachable — no
value at all formats to a BOOL attribute; a boolean formats to the
number-tagged `.N (str b)` because Python's `bool` is a subclass of `int`;
consequently `parse(format(b))` is not `b` (the parse raises on `'True'`,
modelled as `Option.none`); while the parse/format round trip holds for
every string, for `None`, and for every number (exact rational with a
2-and-5-smooth denominator, which covers every Python float value). -/
theorem claim_C10 :
    (∀ (v : PyValue) (b : Bool), format_dynamo_value v ≠ .BOOL b) ∧
    (∀ b : Bool, format_dynamo_value (.bool b) = .N (py_str (.bool b))) ∧
    (∀ b : Bool, parse_dynamo_value (format_dynamo_value (.bool b)) ≠ some (.bool b)) ∧
    (∀ s : String, parse_dynamo_value (format_dynamo_value (.str s)) = some (.str s)) ∧
    (parse_dynamo_value (format_dynamo_value PyValue.none) = some PyValue.none) ∧
    (∀ q : Rat, (∃ a b : Nat, q.den = 2 ^ a * 5 ^ b) →
      parse_dynamo_value (format_dynamo_value (.num q)) = some (.num q)) := by
  refine ⟨?_, ?_, ?_, ?_, rfl, ?_⟩
  · intro v b
    cases v <;> simp [format_dynamo_value, is_int_float_decimal]
  · intro b
    rfl
  · intro b
    cases b <;> decide
  · intro s
    rfl
  · intro q hq
    obtain ⟨a, b, hden⟩ := hq
    show (pyFloat (py_str_num q)).map PyValue.num = some (.num q)
    rw [pyFloat_py_str_num q a b hden]
    rfl

/-- C10 witness: the round trip at a concrete float, string and boolean. -/
theorem claim_C10_witness :
    parse_dynamo_value (format_dynamo_value (.num (5 : Rat))) = some (.num (5 : Rat)) ∧
    parse_dynamo_value (format_dynamo_value (.str "vial-1")) = some (.str "vial-1") ∧
    parse_dynamo_value (format_dynamo_value (.bool true)) ≠ some (.bool true) ∧
    format_dynamo_value (.bool true) = .N (py_str (.bool true)) :=
  ⟨claim_C10.2.2.2.2.2 5 ⟨0, 0, by decide⟩,
   claim_C10.2.2.2.1 "vial-1",
   claim_C10.2.2.1 true,
   claim_C10.2.1 true⟩

/-- C9 counterexample: an unknown-tagged value (here a list tag `L`) is
passed through unchanged as the raw tagged value — the result is not a
string, contradicting "passes the value through as an opaque string". -/
theorem claim_C9_cex :
    parse_dynamo_value (.other "L" "[1]") = some (.raw "L" "[1]") ∧
    is_str_result (parse_dynamo_value (.other "L" "[1]")) = false := by decide

/-- C9 (amended): for the known tags the adapter returns the plain typed
value — string for S, the parsed number for a numeric N payload, null for
NULL, boolean for BOOL — and a value with any other tag passes through
unchanged, as the raw tagged value, rather than failing. -/
theorem claim_C9 (s n t p : String) (b0 c0 : Bool) (q : Rat)
    (hn : pyFloat n = some q) :
    parse_dynamo_value (.S s) = some (.str s) ∧
    parse_dynamo_value (.N n) = some (.num q) ∧
    parse_dynamo_value (.NULL b0) = some PyValue.none ∧
    parse_dynamo_value (.BOOL c0) = some (.bool c0) ∧
    parse_dynamo_value (.other t p) = some (.raw t p) := by
  refine ⟨rfl, ?_, rfl, rfl, rfl⟩
  show (pyFloat n).map PyValue.num = some (.num q)
  rw [hn]
  rfl

/-- C9 witness: concrete values for every tag. -/
theorem claim_C9_witness :
    parse_dynamo_value (.S "vial-1") = some (.str "vial-1") ∧
    parse_dynamo_value (.N (py_str_num 5)) = some (.num (5 : Rat)) ∧
    parse_dynamo_value (.NULL true) = some PyValue.none ∧
    parse_dynamo_value (.BOOL false) = some (.bool false) ∧
    parse_dynamo_value (.other "M" "payload") = some (.raw "M" "payload") :=
  claim_C9 "vial-1" (py_str_num 5) "M" "payload" true false 5
    (pyFloat_py_str_num 5 0 0 (by decide))

